import Mathlib

/-!
Verification development for the textbook-selection reporting app (`app.py`).

The reconciliation routine `load_data`, the store writer `save_single_row`,
the deleter `delete_row_from_db`, and the two save-button handlers of `main`
are embedded below as pure Lean functions over explicit data.  Records are
modelled after the normalised column layout the app works with (the header
normaliser `get_df` is an ingestion boundary: each record carries one field
per canonical column).  Worksheet access is modelled as an explicit list of
rows of strings; fresh UUID generation is modelled by an injective generator
`gen : Nat -> String` threaded through as a counter.
-/

namespace CurriculumFill

/-- One row of the `DB_Curriculum` sheet, restricted to the columns
`load_data` reads: 科別, 學期, 年級, 課程名稱, 課程類別, 預設適用班級. -/
structure CatalogRow where
  dept : String
  semester : String
  grade : String
  courseName : String
  courseType : String
  defaultClass : String
deriving DecidableEq

/-- One row of the `Submission_Records` sheet after header normalisation
(`get_df`).  `classes` is the 適用班級 column, `book1 …` the canonical
textbook columns.  (The `or`-fallbacks in `load_data` between 教科書(優先1)
and 教科書(1) pick whichever normalised column exists; the model carries the
single normalised field.) -/
structure SubRow where
  uuid : String
  dept : String
  semester : String
  grade : String
  courseName : String
  classes : String
  book1 : String := ""
  vol1 : String := ""
  pub1 : String := ""
  code1 : String := ""
  book2 : String := ""
  vol2 : String := ""
  pub2 : String := ""
  code2 : String := ""
  note1 : String := ""
  note2 : String := ""
deriving DecidableEq

/-- One row of the `DB_History` sheet, restricted to the columns `load_data`
reads (it filters history only by 課程名稱 and 適用班級). -/
structure HistRow where
  courseName : String
  classes : String
  book1 : String := ""
  vol1 : String := ""
  pub1 : String := ""
  code1 : String := ""
  book2 : String := ""
  vol2 : String := ""
  pub2 : String := ""
  code2 : String := ""
  note1 : String := ""
  note2 : String := ""
deriving DecidableEq

/-- One display row produced by `load_data` (the dict appended to
`display_rows`). -/
structure DisplayRow where
  checked : Bool := false
  uuid : String
  dept : String
  grade : String
  semester : String
  courseType : String
  courseName : String
  classes : String
  book1 : String := ""
  vol1 : String := ""
  pub1 : String := ""
  code1 : String := ""
  book2 : String := ""
  vol2 : String := ""
  pub2 : String := ""
  code2 : String := ""
  note1 : String := ""
  note2 : String := ""
deriving DecidableEq

/-- Python's `str.strip()` on the whitespace the app's data can contain:
drop leading and trailing whitespace characters. -/
def pyStrip (s : String) : String :=
  String.mk ((((s.toList.dropWhile fun c =>
      c = ' ' ∨ c = '\t' ∨ c = '\n' ∨ c = '\r').reverse).dropWhile fun c =>
      c = ' ' ∨ c = '\t' ∨ c = '\n' ∨ c = '\r').reverse)

/-- Python's `needle in hay` on strings: substring containment.  This is the
check `load_data` performs at `if default_class in s_classes:`. -/
def pyIn (needle hay : String) : Bool :=
  decide (needle.toList <:+: hay.toList)

/-- The display row built from a matching submission row (the first
`display_rows.append` in `load_data`); `safe_get_value` strips every field,
and 適用班級 shows the submission's classes. -/
def subDisplayRow (dept grade semester cType cName : String) (s : SubRow) : DisplayRow :=
  { checked := false
    uuid := s.uuid
    dept := dept, grade := grade, semester := semester
    courseType := cType, courseName := cName
    classes := pyStrip s.classes
    book1 := pyStrip s.book1, vol1 := pyStrip s.vol1
    pub1 := pyStrip s.pub1, code1 := pyStrip s.code1
    book2 := pyStrip s.book2, vol2 := pyStrip s.vol2
    pub2 := pyStrip s.pub2, code2 := pyStrip s.code2
    note1 := pyStrip s.note1, note2 := pyStrip s.note2 }

/-- The display row built from a history row (the second
`display_rows.append`): fields come from `h_row.get(...)` unstripped, the
notes through `safe_get_value` (stripped), and the uuid is freshly
generated. -/
def histDisplayRow (dept grade semester cType cName newUuid : String) (h : HistRow) : DisplayRow :=
  { checked := false
    uuid := newUuid
    dept := dept, grade := grade, semester := semester
    courseType := cType, courseName := cName
    classes := h.classes
    book1 := h.book1, vol1 := h.vol1, pub1 := h.pub1, code1 := h.code1
    book2 := h.book2, vol2 := h.vol2, pub2 := h.pub2, code2 := h.code2
    note1 := pyStrip h.note1, note2 := pyStrip h.note2 }

/-- The blank placeholder row (the third `display_rows.append`): default
class scope, every textbook and note field empty, fresh uuid. -/
def blankDisplayRow (dept grade semester cType cName dClass newUuid : String) : DisplayRow :=
  { checked := false
    uuid := newUuid
    dept := dept, grade := grade, semester := semester
    courseType := cType, courseName := cName
    classes := dClass
    book1 := "", vol1 := "", pub1 := "", code1 := ""
    book2 := "", vol2 := "", pub2 := "", code2 := ""
    note1 := "", note2 := "" }

/-- The mutable loop state of `load_data`: the accumulated `display_rows`,
the `displayed_uuids` set, and the count of uuids generated so far (each
`str(uuid.uuid4())` call is `gen n` for the next counter value `n`). -/
structure LoadState where
  rows : List DisplayRow
  displayed : List String
  n : Nat
deriving DecidableEq

/-- The inner `for _, s_row in sub_matches.iterrows()` loop of `load_data`:
a submission matches when the catalog row's stripped 預設適用班級 is a
substring of the submission's stripped 適用班級; a match marks the catalog
row covered and is appended unless its uuid was already displayed. -/
def processSubs (dClass cType cName dept grade semester : String) :
    List SubRow → LoadState → Bool → LoadState × Bool
  | [], st, covered => (st, covered)
  | s :: rest, st, covered =>
    let sClasses := pyStrip s.classes
    if pyIn dClass sClasses then
      if s.uuid ∈ st.displayed then
        processSubs dClass cType cName dept grade semester rest st true
      else
        processSubs dClass cType cName dept grade semester rest
          { st with
              rows := st.rows ++ [subDisplayRow dept grade semester cType cName s]
              displayed := s.uuid :: st.displayed } true
    else
      processSubs dClass cType cName dept grade semester rest st covered

/-- The `for _, h_row in target_rows.iterrows()` loop of `load_data`: one
display row per history row, each with a fresh uuid. -/
def appendHist (gen : Nat → String) (cType cName dept grade semester : String) :
    List HistRow → LoadState → LoadState
  | [], st => st
  | h :: rest, st =>
    appendHist gen cType cName dept grade semester rest
      { st with
          rows := st.rows ++ [histDisplayRow dept grade semester cType cName (gen st.n) h]
          n := st.n + 1 }

/-- The body of the `for _, row in target_courses.iterrows()` loop of
`load_data` for one catalog row: try submissions, else history (exact
適用班級 match preferred), else the blank placeholder. -/
def processCatalogRow (gen : Nat → String) (dept semester grade : String)
    (hist : List HistRow) (subs : List SubRow) (c : CatalogRow) (st : LoadState) : LoadState :=
  let dClass := pyStrip c.defaultClass
  let subMatches := subs.filter fun s =>
    s.dept = dept ∧ s.semester = semester ∧ s.grade = grade ∧ s.courseName = c.courseName
  let res := processSubs dClass c.courseType c.courseName dept grade semester subMatches st false
  if res.2 then res.1
  else
    let histMatches := hist.filter fun h => h.courseName = c.courseName
    let exact := histMatches.filter fun h => h.classes = dClass
    let targetRows := if histMatches.isEmpty then [] else if exact.isEmpty then histMatches else exact
    if targetRows.isEmpty then
      { res.1 with
          rows := res.1.rows ++
            [blankDisplayRow dept grade semester c.courseType c.courseName dClass (gen res.1.n)]
          n := res.1.n + 1 }
    else
      appendHist gen c.courseType c.courseName dept grade semester targetRows res.1

/-- The catalog loop of `load_data`. -/
def loadDataAux (gen : Nat → String) (dept semester grade : String)
    (hist : List HistRow) (subs : List SubRow) : List CatalogRow → LoadState → LoadState
  | [], st => st
  | c :: cs, st =>
    loadDataAux gen dept semester grade hist subs cs
      (processCatalogRow gen dept semester grade hist subs c st)

/-- `load_data(dept, semester, grade)` over already-ingested sheets: filter
the catalog to the scope, return empty when nothing matches, otherwise run
the reconciliation loop and return the accumulated display rows. -/
def load_data (gen : Nat → String) (dept semester grade : String)
    (curr : List CatalogRow) (hist : List HistRow) (subs : List SubRow) : List DisplayRow :=
  let targetCourses := curr.filter fun c =>
    c.dept = dept ∧ c.semester = semester ∧ c.grade = grade
  if targetCourses.isEmpty then []
  else (loadDataAux gen dept semester grade hist subs targetCourses
          { rows := [], displayed := [], n := 0 }).rows

/-! ## The submission store (`Submission_Records` worksheet)

The worksheet is modelled as `ws.get_all_values()` returns it: a list of
rows of strings, the first row being the header. -/

/-- The canonical header `save_single_row` writes (the literal list that
appears three times in the source). -/
def canonicalHeaders : List String :=
  ["uuid", "填報時間", "科別", "學期", "年級", "課程名稱",
   "教科書(1)", "冊次(1)", "出版社(1)", "字號(1)",
   "教科書(2)", "冊次(2)", "出版社(2)", "字號(2)",
   "適用班級", "備註1", "備註2"]

/-- The fields of the `row_data` dict handed to `save_single_row` (the
display-layer column names). -/
structure RecordData where
  uuid : String
  dept : String
  semester : String
  grade : String
  courseName : String
  book1 : String := ""
  vol1 : String := ""
  pub1 : String := ""
  code1 : String := ""
  book2 : String := ""
  vol2 : String := ""
  pub2 : String := ""
  code2 : String := ""
  classes : String
  note1 : String := ""
  note2 : String := ""
deriving DecidableEq

/-- Lookup in the `data_dict` that `save_single_row` builds: the canonical
column names mapped to the record's fields, 填報時間 to the fresh
timestamp. -/
def dataDictGet (ts : String) (r : RecordData) (h : String) : Option String :=
  if h = "uuid" then some r.uuid
  else if h = "填報時間" then some ts
  else if h = "科別" then some r.dept
  else if h = "學期" then some r.semester
  else if h = "年級" then some r.grade
  else if h = "課程名稱" then some r.courseName
  else if h = "教科書(1)" then some r.book1
  else if h = "冊次(1)" then some r.vol1
  else if h = "出版社(1)" then some r.pub1
  else if h = "字號(1)" then some r.code1
  else if h = "教科書(2)" then some r.book2
  else if h = "冊次(2)" then some r.vol2
  else if h = "出版社(2)" then some r.pub2
  else if h = "字號(2)" then some r.code2
  else if h = "適用班級" then some r.classes
  else if h = "備註1" then some r.note1
  else if h = "備註2" then some r.note2
  else none

/-- The value `save_single_row` writes under header `h`: the `data_dict`
entry when the name is canonical, then the legacy-name fallbacks
(字號/審定字號 from the primary approval code, 備註 from note 1), else the
empty string.  (The `elif` arms for 字號(1)/字號(2) in the source are dead:
those keys are in `data_dict`.) -/
def rowCell (ts : String) (r : RecordData) (h : String) : String :=
  match dataDictGet ts r h with
  | some v => v
  | none =>
    if h = "字號" ∨ h = "審定字號" then r.code1
    else if h = "備註" then r.note1
    else ""

/-- `row_to_write`: one cell per header column. -/
def rowToWrite (ts : String) (r : RecordData) (headers : List String) : List String :=
  headers.map (rowCell ts r)

/-- `col_map = {h: i for i, h in enumerate(headers)}` then `.get(h)`: the
index of the LAST occurrence of `h` (later dict entries overwrite earlier
ones). -/
def colIdxLast (headers : List String) (h : String) : Option Nat :=
  ((headers.enum.filter fun p => p.2 = h).getLast?).map (·.1)

/-- Cell access `row[i]` (worksheet rows are taken rectangular, absent
trailing cells read as empty). -/
def cellAt (row : List String) (i : Nat) : String :=
  row.getD i ""

/-- `save_single_row(row_data)` over the worksheet contents: repair an
empty sheet or a header without a `uuid` column by (re)writing the
canonical header (the repair path clears every data row), then scan the
data rows for the record's uuid — overwrite the found row in place, or
append a new row. -/
def save_single_row (store : List (List String)) (ts : String) (r : RecordData) :
    List (List String) :=
  -- `if not all_values:` — append the canonical header to the empty sheet
  let st1 := if store.isEmpty then [canonicalHeaders] else store
  let headers1 := st1.headD []
  -- `if "uuid" not in headers:` — `ws_sub.clear()` then rewrite the header
  let st2 := if headers1.contains "uuid" then st1 else [canonicalHeaders]
  let headers := st2.headD []
  let rtw := rowToWrite ts r headers
  let body := st2.drop 1
  let uuidIdx := (colIdxLast headers "uuid").getD 0
  -- `if target_uuid:` — an empty uuid is falsy, the scan is skipped
  if r.uuid = "" then headers :: (body ++ [rtw])
  else
    match body.findIdx? (fun row => cellAt row uuidIdx = r.uuid) with
    | some i => headers :: body.set i rtw  -- ranged update of that one row
    | none => headers :: (body ++ [rtw])   -- append_row

/-- `delete_row_from_db(target_uuid)`: no-op on empty uuid, empty sheet or
missing `uuid` header column; otherwise delete the first data row whose
uuid cell equals the target and return `true`.  Returns the flag and the
resulting worksheet. -/
def delete_row_from_db (store : List (List String)) (targetUuid : String) :
    Bool × List (List String) :=
  if targetUuid = "" then (false, store)
  else
    match store with
    | [] => (false, [])
    | headers :: body =>
      if headers.contains "uuid" then
        let uuidIdx := headers.findIdx (fun h => h = "uuid")  -- headers.index("uuid")
        match body.findIdx? (fun row => cellAt row uuidIdx = targetUuid) with
        | some i => (true, headers :: body.eraseIdx i)
        | none => (false, headers :: body)
      else (false, headers :: body)

/-! ## The edit-session save handlers of `main` -/

/-- The `form_data` session dict; the cleared state has every text field
empty and both 冊次 selectors reset to 全. -/
structure FormData where
  course : String := ""
  book1 : String := ""
  vol1 : String := "全"
  pub1 : String := ""
  code1 : String := ""
  book2 : String := ""
  vol2 : String := "全"
  pub2 : String := ""
  code2 : String := ""
  note1 : String := ""
  note2 : String := ""
deriving DecidableEq

/-- The session state the save handlers touch. -/
structure SessionState where
  editIndex : Option Nat := none
  currentUuid : Option String := none
  formData : FormData := {}
  data : List DisplayRow := []
  activeClasses : List String := []
  editorKeyCounter : Nat := 0
deriving DecidableEq

/-- The widget values read by the save buttons; `classStr` is
`",".join(selected_classes)`. -/
structure FormInput where
  course : String := ""
  book1 : String := ""
  vol1 : String := ""
  pub1 : String := ""
  code1 : String := ""
  book2 : String := ""
  vol2 : String := ""
  pub2 : String := ""
  code2 : String := ""
  note1 : String := ""
  note2 : String := ""
  classStr : String := ""
deriving DecidableEq

/-- The `new_row` dict both save buttons build (課程類別 is hard-coded to
部定必修). -/
def formRow (newUuid dept grade sem : String) (inp : FormInput) : DisplayRow :=
  { checked := false
    uuid := newUuid
    dept := dept, grade := grade, semester := sem
    courseType := "部定必修"
    courseName := inp.course
    classes := inp.classStr
    book1 := inp.book1, vol1 := inp.vol1, pub1 := inp.pub1, code1 := inp.code1
    book2 := inp.book2, vol2 := inp.vol2, pub2 := inp.pub2, code2 := inp.code2
    note1 := inp.note1, note2 := inp.note2 }

/-- The same `new_row` as the `row_data` argument of `save_single_row`. -/
def formRecord (newUuid dept grade sem : String) (inp : FormInput) : RecordData :=
  { uuid := newUuid
    dept := dept, semester := sem, grade := grade
    courseName := inp.course
    book1 := inp.book1, vol1 := inp.vol1, pub1 := inp.pub1, code1 := inp.code1
    book2 := inp.book2, vol2 := inp.vol2, pub2 := inp.pub2, code2 := inp.code2
    classes := inp.classStr
    note1 := inp.note1, note2 := inp.note2 }

/-- The 更新表格 (存檔) button handler: validate the required fields
(適用班級, first-choice 書名/出版社/冊次); on failure show the error and
touch nothing; on success write the store, update the selected display row
in place and reset the session.  Returns
(state, store, validation error shown, store write attempted). -/
def updateRowAction (gen : Nat → String) (ts dept grade sem : String)
    (inp : FormInput) (st : SessionState) (store : List (List String)) :
    SessionState × List (List String) × Bool × Bool :=
  if inp.classStr = "" ∨ inp.book1 = "" ∨ inp.pub1 = "" ∨ inp.vol1 = "" then
    (st, store, true, false)
  else
    let idx := st.editIndex.getD 0
    -- `if not current_uuid: current_uuid = str(uuid.uuid4())`
    let curUuid :=
      match st.currentUuid with
      | some u => if u = "" then gen 0 else u
      | none => gen 0
    let newRow := formRow curUuid dept grade sem inp
    let store1 := save_single_row store ts (formRecord curUuid dept grade sem inp)
    ({ st with
        editIndex := none
        currentUuid := none
        formData := {}
        activeClasses := []
        data := st.data.set idx newRow
        editorKeyCounter := st.editorKeyCounter + 1 },
      store1, false, true)

/-- The 加入表格 (存檔) button handler: same validation; on success a fresh
uuid, store write, row appended to the display list, form cleared. -/
def addRowAction (gen : Nat → String) (ts dept grade sem : String)
    (inp : FormInput) (st : SessionState) (store : List (List String)) :
    SessionState × List (List String) × Bool × Bool :=
  if inp.classStr = "" ∨ inp.book1 = "" ∨ inp.pub1 = "" ∨ inp.vol1 = "" then
    (st, store, true, false)
  else
    let newUuid := gen 0
    let newRow := formRow newUuid dept grade sem inp
    let store1 := save_single_row store ts (formRecord newUuid dept grade sem inp)
    ({ st with
        data := st.data ++ [newRow]
        formData := {}
        activeClasses := []
        editorKeyCounter := st.editorKeyCounter + 1 },
      store1, false, true)

/-! ## Archive forward-sync (spec-modelled) -/

/-- A typed Selection Record for the forward-sync model. -/
structure SelRecord where
  uuid : String
  dept : String
  grade : String
  term : String
  course : String
  category : String := ""
  classes : String := ""
  book1 : String := ""
  vol1 : String := ""
  pub1 : String := ""
  code1 : String := ""
  book2 : String := ""
  vol2 : String := ""
  pub2 : String := ""
  code2 : String := ""
  note1 : String := ""
  note2 : String := ""
  cycleTag : String := ""
  timestamp : String := ""
deriving DecidableEq

/-- Modelled from the spec: `upsert(record)` of §4.3, on a typed store —
scan for a row with the record's identifier, overwrite it in place when
found, append otherwise.  (The repository ships no `forwardSync`; §4.4 is
the only description of it, and it calls this upsert.) -/
def upsertRec : List SelRecord → SelRecord → List SelRecord
  | [], r => [r]
  | x :: rest, r => if x.uuid = r.uuid then r :: rest else x :: upsertRec rest r

/-- Modelled from the spec: `forwardSync(department, archiveCycleTag)` of
§4.4 — compute the identifiers already present in Submissions, and for
every Archive row of the requested department and cycle whose identifier
is not among them, upsert a copy carrying the current timestamp and cycle
tag; rows whose identifier is present are skipped entirely. -/
def forwardSync (subs archive : List SelRecord) (dept cycle nowTs curCycle : String) :
    List SelRecord :=
  let present := subs.map (·.uuid)
  let toCopy := archive.filter fun h =>
    h.dept = dept ∧ h.cycleTag = cycle ∧ ¬ h.uuid ∈ present
  toCopy.foldl (fun st h => upsertRec st { h with timestamp := nowTs, cycleTag := curCycle }) subs

/-! ## Spec-side class-set matcher (§4.1), for comparison with the source -/

/-- Spec-side (§4.1): strip whitespace and quoting characters from one
token. -/
def stripTokenChars (t : String) : String :=
  String.mk (t.toList.filter fun c =>
    ¬ (c = ' ' ∨ c = '\t' ∨ c = '\n' ∨ c = '\r' ∨ c = '"' ∨ c = '“' ∨ c = '”'))

/-- Split a character list at half- and full-width commas. -/
def splitCommas : List Char → List Char → List (List Char)
  | [], acc => [acc.reverse]
  | c :: rest, acc =>
    if c = ',' ∨ c = '，' then acc.reverse :: splitCommas rest []
    else splitCommas rest (c :: acc)

/-- Spec-side (§4.1): `parse` — split on half- and full-width commas, strip
each token, drop empties. -/
def parseScope (s : String) : List String :=
  ((splitCommas s.toList []).map fun t => stripTokenChars (String.mk t)).filter fun t => t ≠ ""

/-- Spec-side (§4.1): `overlaps` — wildcard when the default scope parses
empty, otherwise at least one shared token. -/
def overlapsSpec (defaultScope candidateScope : String) : Bool :=
  let pd := parseScope defaultScope
  if pd.isEmpty then true
  else (parseScope candidateScope).any fun t => pd.contains t

/-! ## Auxiliary definitions for the statements below -/

/-- A concrete uuid generator for witnesses: `n` maps to the string of
`n + 1` letters `a` (injective, and never equal to any string containing
another letter). -/
def genW : Nat → String := fun n => String.mk (List.replicate (n + 1) 'a')

/-- The invariant of the `load_data` loop state: the emitted uuids are
distinct; every emitted row's uuid is either a displayed submission uuid or
one of the generated uuids so far; and every displayed uuid belongs to a
submission row and satisfies the provenance predicate `B`. -/
def InvState (subs : List SubRow) (gen : Nat → String) (B : String → Prop)
    (st : LoadState) : Prop :=
  (st.rows.map (·.uuid)).Nodup ∧
  (∀ r ∈ st.rows, r.uuid ∈ st.displayed ∨ ∃ m, m < st.n ∧ r.uuid = gen m) ∧
  (∀ u ∈ st.displayed, (∃ s ∈ subs, s.uuid = u) ∧ B u)

/-- The blank placeholders for a list of catalog rows, uuids generated from
counter value `n` on — the shape `load_data` returns when there are no
submissions and no history. -/
def blankList (gen : Nat → String) (dept grade semester : String) :
    List CatalogRow → Nat → List DisplayRow
  | [], _ => []
  | c :: cs, n =>
    blankDisplayRow dept grade semester c.courseType c.courseName
        (pyStrip c.defaultClass) (gen n) ::
      blankList gen dept grade semester cs (n + 1)

/-- The display order the spec claims: course category descending, course
name ascending within a category (string comparison lexicographic on the
character lists). -/
def sortedByCategoryDesc (l : List DisplayRow) : Prop :=
  l.Chain' fun a b =>
    b.courseType.toList < a.courseType.toList ∨
      (b.courseType = a.courseType ∧ ¬ b.courseName.toList < a.courseName.toList)

/-- A concrete record for witnesses. -/
def rW1 : RecordData :=
  { uuid := "u1", dept := "D", semester := "1", grade := "1",
    courseName := "M", classes := "1A", book1 := "B1" }

/-- The same record with a different primary-textbook title. -/
def rW2 : RecordData := { rW1 with book1 := "B2" }

/-- A concrete stored worksheet row for witnesses, uuid `u1` in the first
column. -/
def oldRowW : List String :=
  ["u1", "t0", "D", "1", "1", "M", "B0", "", "", "", "", "", "", "", "1A", "", ""]

end CurriculumFill

namespace CurriculumFill

/-! # Basic facts about the witness generator -/

/-- `genW n` is a string of `n + 1` characters. -/
lemma genW_length (n : Nat) : (genW n).length = n + 1 := by
  simp [genW, String.length]

/-- The witness generator is injective. -/
lemma genW_inj : Function.Injective genW := by
  intro m m' h
  have h2 := congrArg String.length h
  simpa [genW_length] using h2

/-- No generated witness uuid equals the string `bb`. -/
lemma genW_ne_bb (m : Nat) : genW m ≠ "bb" := by
  intro h
  have h2 := congrArg String.length h
  have hl : ("bb" : String).length = 2 := rfl
  rw [genW_length, hl] at h2
  have hm : m = 1 := by omega
  subst hm
  exact absurd h (by decide)

/-! # Unfolding lemmas for the reconciliation loop -/

/-- When no submission in the list passes the substring test, the
submission loop changes nothing. -/
lemma processSubs_all_unmatched (dClass cType cName dept grade semester : String)
    (ms : List SubRow) (st : LoadState) (covered : Bool)
    (h : ∀ s ∈ ms, pyIn dClass (pyStrip s.classes) = false) :
    processSubs dClass cType cName dept grade semester ms st covered = (st, covered) := by
  induction ms with
  | nil => rfl
  | cons s rest ih =>
    have hs := h s (List.mem_cons_self ..)
    simp only [processSubs, hs, Bool.false_eq_true, if_false]
    exact ih fun s' hs' => h s' (List.mem_cons_of_mem _ hs')

/-- With no submissions and no history, the catalog loop appends exactly
the blank placeholders, in catalog order, consuming one generated uuid per
row. -/
lemma loadDataAux_no_sources (gen : Nat → String) (dept semester grade : String)
    (cs : List CatalogRow) (st : LoadState) :
    loadDataAux gen dept semester grade [] [] cs st =
      { rows := st.rows ++ blankList gen dept grade semester cs st.n,
        displayed := st.displayed,
        n := st.n + cs.length } := by
  induction cs generalizing st with
  | nil => simp [loadDataAux, blankList]
  | cons c rest ih =>
    simp only [loadDataAux, processCatalogRow, List.filter_nil, processSubs, List.isEmpty_nil,
      if_true, List.length_cons]
    rw [ih]
    simp [blankList, LoadState.mk.injEq, List.append_assoc]
    omega

/-! # The loop invariant used for the duplicate-identifier and provenance
theorems -/

/-- Appending one row carrying the next generated uuid preserves the
invariant. -/
lemma invState_append_gen (subs : List SubRow) (gen : Nat → String) (B : String → Prop)
    (st : LoadState) (r : DisplayRow)
    (hg : Function.Injective gen)
    (hgf : ∀ m, ∀ s ∈ subs, gen m ≠ s.uuid)
    (hinv : InvState subs gen B st)
    (hu : r.uuid = gen st.n) :
    InvState subs gen B { st with rows := st.rows ++ [r], n := st.n + 1 } := by
  obtain ⟨h1, h2, h3⟩ := hinv
  refine ⟨?_, ?_, ?_⟩
  · simp only [List.map_append, List.map_cons, List.map_nil, List.nodup_append]
    refine ⟨h1, List.nodup_singleton _, ?_⟩
    intro u hu1 hu2
    simp only [List.mem_singleton] at hu2
    subst hu2
    obtain ⟨r', hr', hru⟩ := List.mem_map.mp hu1
    rcases h2 r' hr' with hd | ⟨m, hm, he⟩
    · obtain ⟨⟨s, hsmem, hsu⟩, _⟩ := h3 _ hd
      exact hgf st.n s hsmem (by rw [hu] at hru; rw [← hru, hsu])
    · exact absurd (hg (by rw [← he, hru, hu])) (Nat.ne_of_lt hm)
  · intro r' hr'
    simp only [List.mem_append, List.mem_singleton] at hr'
    rcases hr' with hr' | hr'
    · rcases h2 r' hr' with hd | ⟨m, hm, he⟩
      · exact Or.inl hd
      · exact Or.inr ⟨m, Nat.lt_succ_of_lt hm, he⟩
    · subst hr'
      exact Or.inr ⟨st.n, Nat.lt_succ_self _, hu⟩
  · exact h3

/-- The history loop preserves the invariant: every appended row carries a
fresh generated uuid. -/
lemma appendHist_inv (subs : List SubRow) (gen : Nat → String) (B : String → Prop)
    (cType cName dept grade semester : String)
    (hg : Function.Injective gen)
    (hgf : ∀ m, ∀ s ∈ subs, gen m ≠ s.uuid) :
    ∀ (hs : List HistRow) (st : LoadState), InvState subs gen B st →
      InvState subs gen B (appendHist gen cType cName dept grade semester hs st) := by
  intro hs
  induction hs with
  | nil => intro st h; simpa [appendHist] using h
  | cons h rest ih =>
    intro st hinv
    rw [appendHist]
    exact ih _ (invState_append_gen subs gen B st _ hg hgf hinv rfl)

/-- The submission loop preserves the invariant and does not consume
generated uuids; displayed uuids it adds come from the processed
submissions and satisfy `B`. -/
lemma processSubs_inv (subs : List SubRow) (gen : Nat → String) (B : String → Prop)
    (dClass cType cName dept grade semester : String)
    (hgf : ∀ m, ∀ s ∈ subs, gen m ≠ s.uuid) :
    ∀ (ms : List SubRow) (st : LoadState) (covered : Bool),
      (∀ s ∈ ms, s ∈ subs ∧ (pyIn dClass (pyStrip s.classes) = true → B s.uuid)) →
      InvState subs gen B st →
      InvState subs gen B (processSubs dClass cType cName dept grade semester ms st covered).1 ∧
        (processSubs dClass cType cName dept grade semester ms st covered).1.n = st.n := by
  intro ms
  induction ms with
  | nil => intro st covered _ hinv; exact ⟨hinv, rfl⟩
  | cons s rest ih =>
    intro st covered hms hinv
    have hrest : ∀ s' ∈ rest, s' ∈ subs ∧ (pyIn dClass (pyStrip s'.classes) = true → B s'.uuid) :=
      fun s' h => hms s' (List.mem_cons_of_mem _ h)
    obtain ⟨hsmem, hsB⟩ := hms s (List.mem_cons_self ..)
    by_cases hp : pyIn dClass (pyStrip s.classes) = true
    · by_cases hd : s.uuid ∈ st.displayed
      · simp only [processSubs, hp, if_true, hd, if_pos]
        exact ih st true hrest hinv
      · simp only [processSubs, hp, if_true, hd, if_neg, if_false]
        obtain ⟨h1, h2, h3⟩ := hinv
        refine ih _ true hrest ⟨?_, ?_, ?_⟩
        · simp only [List.map_append, List.map_cons, List.map_nil, List.nodup_append]
          refine ⟨h1, List.nodup_singleton _, ?_⟩
          intro u hu1 hu2
          simp only [List.mem_singleton] at hu2
          subst hu2
          obtain ⟨r', hr', hru⟩ := List.mem_map.mp hu1
          have hru2 : r'.uuid = s.uuid := hru
          rcases h2 r' hr' with hdisp | ⟨m, _, he⟩
          · rw [hru2] at hdisp
            exact hd hdisp
          · exact hgf m s hsmem (by rw [← he]; exact hru2)
        · intro r' hr'
          simp only [List.mem_append, List.mem_singleton] at hr'
          rcases hr' with hr' | hr'
          · rcases h2 r' hr' with hdisp | hgen
            · exact Or.inl (List.mem_cons_of_mem _ hdisp)
            · exact Or.inr hgen
          · subst hr'
            exact Or.inl (List.mem_cons_self ..)
        · intro u hud
          rcases List.mem_cons.mp hud with he | hud
          · subst he
            exact ⟨⟨s, hsmem, rfl⟩, hsB hp⟩
          · exact h3 u hud
    · simp only [processSubs, hp, if_false, Bool.false_eq_true]
      exact ih st covered hrest hinv

/-- One catalog-row step preserves the invariant, provided `B` covers every
submission that can match this catalog row. -/
lemma processCatalogRow_inv (gen : Nat → String) (dept semester grade : String)
    (hist : List HistRow) (subs : List SubRow) (B : String → Prop) (c : CatalogRow)
    (st : LoadState)
    (hg : Function.Injective gen)
    (hgf : ∀ m, ∀ s ∈ subs, gen m ≠ s.uuid)
    (hB : ∀ s ∈ subs, s.dept = dept → s.semester = semester → s.grade = grade →
      s.courseName = c.courseName →
      pyIn (pyStrip c.defaultClass) (pyStrip s.classes) = true → B s.uuid)
    (hinv : InvState subs gen B st) :
    InvState subs gen B (processCatalogRow gen dept semester grade hist subs c st) := by
  have hms : ∀ s ∈ (subs.filter fun s =>
      s.dept = dept ∧ s.semester = semester ∧ s.grade = grade ∧ s.courseName = c.courseName),
      s ∈ subs ∧ (pyIn (pyStrip c.defaultClass) (pyStrip s.classes) = true → B s.uuid) := by
    intro s hs
    rw [List.mem_filter] at hs
    obtain ⟨hs1, hs2⟩ := hs
    simp only [decide_eq_true_eq] at hs2
    exact ⟨hs1, fun hp => hB s hs1 hs2.1 hs2.2.1 hs2.2.2.1 hs2.2.2.2 hp⟩
  have hps := processSubs_inv subs gen B (pyStrip c.defaultClass) c.courseType c.courseName
    dept grade semester hgf
    (subs.filter fun s =>
      s.dept = dept ∧ s.semester = semester ∧ s.grade = grade ∧ s.courseName = c.courseName)
    st false hms hinv
  simp only [processCatalogRow]
  split_ifs
  all_goals
    first
      | exact hps.1
      | exact invState_append_gen subs gen B _ _ hg hgf hps.1 rfl
      | exact appendHist_inv subs gen B c.courseType c.courseName dept grade semester
          hg hgf _ _ hps.1

/-- The whole catalog loop preserves the invariant. -/
lemma loadDataAux_inv (gen : Nat → String) (dept semester grade : String)
    (hist : List HistRow) (subs : List SubRow) (B : String → Prop)
    (hg : Function.Injective gen)
    (hgf : ∀ m, ∀ s ∈ subs, gen m ≠ s.uuid) :
    ∀ (cs : List CatalogRow) (st : LoadState),
      (∀ c ∈ cs, ∀ s ∈ subs, s.dept = dept → s.semester = semester → s.grade = grade →
        s.courseName = c.courseName →
        pyIn (pyStrip c.defaultClass) (pyStrip s.classes) = true → B s.uuid) →
      InvState subs gen B st →
      InvState subs gen B (loadDataAux gen dept semester grade hist subs cs st) := by
  intro cs
  induction cs with
  | nil => intro st _ hinv; simpa [loadDataAux] using hinv
  | cons c rest ih =>
    intro st hB hinv
    rw [loadDataAux]
    exact ih _ (fun c' hc' => hB c' (List.mem_cons_of_mem _ hc'))
      (processCatalogRow_inv gen dept semester grade hist subs B c st hg hgf
        (hB c (List.mem_cons_self ..)) hinv)

end CurriculumFill

namespace CurriculumFill

/-! # List lemmas for the worksheet scan -/

/-- Scanning a list with exactly one matching element in the middle finds
its position (generalised over the start index). -/
lemma findIdx?_middle_acc {α : Type} (p : α → Bool) (post : List α) (x : α)
    (hx : p x = true) :
    ∀ (pre : List α), (∀ a ∈ pre, p a = false) →
      ∀ i, List.findIdx? p (pre ++ x :: post) i = some (pre.length + i) := by
  intro pre
  induction pre with
  | nil => intro _ i; simp [List.findIdx?, hx]
  | cons a rest ih =>
    intro hpre i
    have ha := hpre a (List.mem_cons_self ..)
    simp only [List.cons_append, List.findIdx?, List.append_eq, ha, Bool.false_eq_true,
      if_false, List.length_cons]
    rw [ih (fun b hb => hpre b (List.mem_cons_of_mem _ hb)) (i + 1)]
    congr 1
    omega

/-- Scanning finds the first match at position `pre.length` when nothing in
`pre` matches. -/
lemma findIdx?_middle {α : Type} (p : α → Bool) (pre post : List α) (x : α)
    (hpre : ∀ a ∈ pre, p a = false) (hx : p x = true) :
    (pre ++ x :: post).findIdx? p = some pre.length := by
  have h := findIdx?_middle_acc p post x hx pre hpre 0
  simpa using h

/-- Scanning a list with no matching element yields nothing (generalised
over the start index). -/
lemma findIdx?_none_acc {α : Type} (p : α → Bool) :
    ∀ (l : List α), (∀ a ∈ l, p a = false) → ∀ i, List.findIdx? p l i = none := by
  intro l
  induction l with
  | nil => intro _ _; rfl
  | cons a rest ih =>
    intro h i
    have ha := h a (List.mem_cons_self ..)
    simp only [List.findIdx?, ha, Bool.false_eq_true, if_false]
    exact ih (fun b hb => h b (List.mem_cons_of_mem _ hb)) (i + 1)

/-- Scanning a list with no matching element yields nothing. -/
lemma findIdx?_none_of_all {α : Type} (p : α → Bool) (l : List α)
    (h : ∀ a ∈ l, p a = false) : l.findIdx? p = none :=
  findIdx?_none_acc p l h 0

/-- Setting the element at position `pre.length` replaces the middle
element. -/
lemma set_middle {α : Type} (pre post : List α) (x y : α) :
    (pre ++ x :: post).set pre.length y = pre ++ y :: post := by
  induction pre with
  | nil => rfl
  | cons a rest ih => simp [List.set, ih]

/-- Erasing the element at position `pre.length` removes the middle
element. -/
lemma eraseIdx_middle {α : Type} (pre post : List α) (x : α) :
    (pre ++ x :: post).eraseIdx pre.length = pre ++ post := by
  induction pre with
  | nil => rfl
  | cons a rest ih => simp [List.eraseIdx, ih]

/-! # Facts about the canonical store layout -/

/-- The canonical header has a `uuid` column. -/
lemma canonicalHeaders_contains_uuid : canonicalHeaders.contains "uuid" = true := rfl

/-- The `col_map` lookup puts `uuid` in the first column of the canonical
layout. -/
lemma colIdxLast_canonical : colIdxLast canonicalHeaders "uuid" = some 0 := rfl

/-- The row written under the canonical header carries the record's uuid in
the first cell. -/
lemma rowToWrite_uuid (ts : String) (r : RecordData) :
    cellAt (rowToWrite ts r canonicalHeaders) 0 = r.uuid := rfl

/-- `save_single_row` on a canonical store whose scan finds the uuid at
position `i` updates that row in place. -/
lemma save_canonical_found (rows : List (List String)) (ts : String) (r : RecordData)
    (i : Nat) (hu : r.uuid ≠ "")
    (hfind : rows.findIdx? (fun row => cellAt row 0 = r.uuid) = some i) :
    save_single_row (canonicalHeaders :: rows) ts r =
      canonicalHeaders :: rows.set i (rowToWrite ts r canonicalHeaders) := by
  simp only [save_single_row, List.isEmpty_cons, Bool.false_eq_true, if_false,
    List.headD_cons, canonicalHeaders_contains_uuid, if_true, List.drop_succ_cons,
    List.drop_zero, colIdxLast_canonical, Option.getD_some, hu, hfind]

/-- `save_single_row` on a canonical store whose scan finds nothing appends
the new row. -/
lemma save_canonical_notfound (rows : List (List String)) (ts : String) (r : RecordData)
    (hu : r.uuid ≠ "")
    (hfind : rows.findIdx? (fun row => cellAt row 0 = r.uuid) = none) :
    save_single_row (canonicalHeaders :: rows) ts r =
      canonicalHeaders :: (rows ++ [rowToWrite ts r canonicalHeaders]) := by
  simp only [save_single_row, List.isEmpty_cons, Bool.false_eq_true, if_false,
    List.headD_cons, canonicalHeaders_contains_uuid, if_true, List.drop_succ_cons,
    List.drop_zero, colIdxLast_canonical, Option.getD_some, hu, hfind]

/-! # Facts about the spec-modelled upsert -/

/-- The uuids of an upserted store contain the old uuids and the upserted
record's uuid. -/
lemma mem_uuid_upsertRec (st : List SelRecord) (r : SelRecord) (u : String)
    (h : u ∈ st.map (·.uuid) ∨ u = r.uuid) : u ∈ (upsertRec st r).map (·.uuid) := by
  induction st with
  | nil =>
    rcases h with h | h
    · simp at h
    · simp [upsertRec, h]
  | cons x rest ih =>
    by_cases hx : x.uuid = r.uuid
    · rcases h with h | h
      · simp only [List.map_cons, List.mem_cons] at h
        rcases h with h | h
        · simp [upsertRec, hx, h]
        · simp [upsertRec, hx, h]
      · simp [upsertRec, hx, h]
    · rcases h with h | h
      · simp only [List.map_cons, List.mem_cons] at h
        rcases h with h | h
        · simp [upsertRec, hx, h]
        · simp only [upsertRec, hx, if_false, List.map_cons, List.mem_cons]
          exact Or.inr (ih (Or.inl h))
      · simp only [upsertRec, hx, if_false, List.map_cons, List.mem_cons]
        exact Or.inr (ih (Or.inr h))

/-- Folding upserts never loses a uuid already in the store. -/
lemma foldl_upsert_mono (f : SelRecord → SelRecord) (l : List SelRecord) :
    ∀ (st : List SelRecord) (u : String), u ∈ st.map (·.uuid) →
      u ∈ (l.foldl (fun st h => upsertRec st (f h)) st).map (·.uuid) := by
  induction l with
  | nil => intro st u h; simpa using h
  | cons a rest ih =>
    intro st u h
    exact ih _ u (mem_uuid_upsertRec st (f a) u (Or.inl h))

/-- After folding upserts over a list, every listed record's uuid is in the
store (when the copy function preserves uuids). -/
lemma mem_uuid_foldl_self (f : SelRecord → SelRecord) (hf : ∀ h, (f h).uuid = h.uuid)
    (l : List SelRecord) :
    ∀ (st : List SelRecord) (h : SelRecord), h ∈ l →
      h.uuid ∈ (l.foldl (fun st h => upsertRec st (f h)) st).map (·.uuid) := by
  induction l with
  | nil => intro st h hmem; exact absurd hmem (List.not_mem_nil h)
  | cons a rest ih =>
    intro st h hmem
    rcases List.mem_cons.mp hmem with he | hmem
    · subst he
      exact foldl_upsert_mono f rest _ _
        (mem_uuid_upsertRec st (f h) h.uuid (Or.inr (hf h).symm))
    · exact ih _ h hmem

end CurriculumFill

namespace CurriculumFill

/-! # Claim C1 — submission/catalog matching -/

/-- C1 is false on the code: for the spec's own example, `overlaps`
over the parsed token sets holds (`"1A,1B"` and `"1B"` share the token
`1B`), yet `load_data` does not treat the submission as matching — the
check is Python substring containment `default_class in s_classes`, which
fails here, so the blank placeholder (uuid `a`, empty textbook title) is
emitted instead of the submission (uuid `bb`, title `X`). -/
theorem c1_counterexample :
    overlapsSpec "1A,1B" "1B" = true ∧
    (load_data genW "D" "1" "1"
        [{ dept := "D", semester := "1", grade := "1", courseName := "M",
           courseType := "T", defaultClass := "1A,1B" }] []
        [{ uuid := "bb", dept := "D", semester := "1", grade := "1",
           courseName := "M", classes := "1B", book1 := "X" }]).map
      (fun r => (r.uuid, r.book1)) = [("a", "")] :=
  ⟨by decide, by decide⟩

/-- C1 (amended): for a catalog row and a submission in the same scope and
course, reconciliation emits the submission iff the catalog row's stripped
default class-scope is a substring (`pyIn`) of the submission's stripped
class-scope — substring containment, not token-set overlap.  (An empty
default scope is a substring of everything, so the wildcard case still
matches.) -/
theorem load_data_single_match_iff (gen : Nat → String) (dept semester grade : String)
    (c : CatalogRow) (s : SubRow)
    (hcd : c.dept = dept) (hcs : c.semester = semester) (hcg : c.grade = grade)
    (hsd : s.dept = dept) (hss : s.semester = semester) (hsg : s.grade = grade)
    (hsc : s.courseName = c.courseName)
    (hgen : ∀ m, gen m ≠ s.uuid) :
    (s.uuid ∈ (load_data gen dept semester grade [c] [] [s]).map (·.uuid))
      ↔ pyIn (pyStrip c.defaultClass) (pyStrip s.classes) = true := by
  by_cases hm : pyIn (pyStrip c.defaultClass) (pyStrip s.classes) = true
  · simp [load_data, loadDataAux, processCatalogRow, processSubs,
      hcd, hcs, hcg, hsd, hss, hsg, hsc, hm, subDisplayRow]
  · simp [load_data, loadDataAux, processCatalogRow, processSubs, appendHist,
      hcd, hcs, hcg, hsd, hss, hsg, hsc, hm, blankDisplayRow]
    exact fun h => absurd h.symm (hgen 0)

/-- C1 witness: the amended matching criterion evaluated at a concrete
matching pair (`"1B"` is a substring of `"1A,1B"`). -/
theorem load_data_single_match_iff_witness :
    ("bb" ∈ (load_data genW "D" "1" "1"
        [{ dept := "D", semester := "1", grade := "1", courseName := "M",
           courseType := "T", defaultClass := "1B" }] []
        [{ uuid := "bb", dept := "D", semester := "1", grade := "1",
           courseName := "M", classes := "1A,1B" }]).map (·.uuid))
      ↔ pyIn (pyStrip "1B") (pyStrip "1A,1B") = true :=
  load_data_single_match_iff genW "D" "1" "1" _ _ rfl rfl rfl rfl rfl rfl rfl genW_ne_bb

/-! # Claim C2 — no duplicate identifiers in one reconciliation pass -/

/-- C2: one `load_data` call never emits two display rows with the same
identifier, for any catalog/history/submission contents — submission rows
are deduplicated through `displayed_uuids`, and the remaining rows carry
freshly generated identifiers (the generator is injective and avoids the
stored submission uuids). -/
theorem load_data_no_duplicate_ids (gen : Nat → String) (dept semester grade : String)
    (curr : List CatalogRow) (hist : List HistRow) (subs : List SubRow)
    (hg : Function.Injective gen)
    (hgf : ∀ m, ∀ s ∈ subs, gen m ≠ s.uuid) :
    ((load_data gen dept semester grade curr hist subs).map (·.uuid)).Nodup := by
  rw [load_data]
  split
  · simp
  · have h := loadDataAux_inv gen dept semester grade hist subs (fun _ => True) hg hgf
      (curr.filter fun c => c.dept = dept ∧ c.semester = semester ∧ c.grade = grade)
      { rows := [], displayed := [], n := 0 }
      (fun _ _ _ _ _ _ _ _ _ => trivial)
      ⟨List.nodup_nil, by simp, by simp⟩
    exact h.1

/-- C2 witness: a submission that satisfies two overlapping catalog rows is
emitted once; the identifiers of the result are distinct. -/
theorem load_data_no_duplicate_ids_witness :
    ((load_data genW "D" "1" "1"
        [{ dept := "D", semester := "1", grade := "1", courseName := "M",
           courseType := "T", defaultClass := "1A" },
         { dept := "D", semester := "1", grade := "1", courseName := "M",
           courseType := "U", defaultClass := "1A" }] []
        [{ uuid := "bb", dept := "D", semester := "1", grade := "1",
           courseName := "M", classes := "1A" }]).map (·.uuid)).Nodup :=
  load_data_no_duplicate_ids genW "D" "1" "1" _ _ _ genW_inj
    (fun m s hs => by
      rw [List.mem_singleton] at hs
      subst hs
      exact genW_ne_bb m)

/-! # Claim C3 — blank placeholder for unmatched catalog rows -/

/-- C3 is false on the code: for a catalog row (default scope `1A`) with no
submissions at all, `load_data` does not emit a blank placeholder — a
`DB_History` row with the same course name is emitted instead, carrying the
history row's class-scope `1B` and textbook `B` rather than the default
scope and empty fields. -/
theorem c3_counterexample :
    (load_data genW "D" "1" "1"
        [{ dept := "D", semester := "1", grade := "1", courseName := "M",
           courseType := "T", defaultClass := "1A" }]
        [{ courseName := "M", classes := "1B", book1 := "B" }]
        []).map (fun r => (r.classes, r.book1)) = [("1B", "B")] := by
  decide

/-- C3 (amended): the single blank placeholder row — default class-scope,
all textbook fields empty, freshly generated identifier — is emitted for a
catalog row exactly when no submission matches it AND no history row shares
its course name. -/
theorem load_data_blank_when_fully_unmatched (gen : Nat → String)
    (dept semester grade : String) (c : CatalogRow) (hist : List HistRow) (subs : List SubRow)
    (hcd : c.dept = dept) (hcs : c.semester = semester) (hcg : c.grade = grade)
    (hsub : ∀ s ∈ subs, s.dept = dept → s.semester = semester → s.grade = grade →
      s.courseName = c.courseName → pyIn (pyStrip c.defaultClass) (pyStrip s.classes) = false)
    (hh : ∀ h ∈ hist, h.courseName ≠ c.courseName) :
    load_data gen dept semester grade [c] hist subs =
      [blankDisplayRow dept grade semester c.courseType c.courseName
        (pyStrip c.defaultClass) (gen 0)] := by
  have hfil : ([c].filter fun c' =>
      c'.dept = dept ∧ c'.semester = semester ∧ c'.grade = grade) = [c] := by
    simp [hcd, hcs, hcg]
  have hmatches : ∀ s ∈ (subs.filter fun s =>
      s.dept = dept ∧ s.semester = semester ∧ s.grade = grade ∧ s.courseName = c.courseName),
      pyIn (pyStrip c.defaultClass) (pyStrip s.classes) = false := by
    intro s hs
    rw [List.mem_filter] at hs
    obtain ⟨hs1, hs2⟩ := hs
    simp only [decide_eq_true_eq] at hs2
    exact hsub s hs1 hs2.1 hs2.2.1 hs2.2.2.1 hs2.2.2.2
  have hhist : (hist.filter fun h => h.courseName = c.courseName) = [] := by
    rw [List.filter_eq_nil_iff]
    intro h hmem
    simpa using hh h hmem
  rw [load_data, hfil]
  simp only [List.isEmpty_cons, if_false, Bool.false_eq_true]
  simp only [loadDataAux, processCatalogRow]
  rw [processSubs_all_unmatched _ _ _ _ _ _ _ _ _ hmatches, hhist]
  simp

/-- C3 witness: an in-scope catalog row with no submissions and no history
yields exactly its blank placeholder (default scope stripped, first
generated uuid). -/
theorem load_data_blank_when_fully_unmatched_witness :
    load_data genW "D" "1" "1"
        [{ dept := "D", semester := "1", grade := "1", courseName := "M",
           courseType := "T", defaultClass := " 1A " }] [] [] =
      [blankDisplayRow "D" "1" "1" "T" "M" (pyStrip " 1A ") (genW 0)] :=
  load_data_blank_when_fully_unmatched genW "D" "1" "1" _ [] [] rfl rfl rfl
    (fun s hs => absurd hs (List.not_mem_nil s))
    (fun h hh => absurd hh (List.not_mem_nil h))

/-! # Claim C4 — the orphan pass -/

/-- C4 is false on the code: the submission with identifier `bb` is in
scope but its course name `N` appears in no catalog row, and `load_data`
returns only the blank placeholder (uuid `a`) for course `M` — the
submission is simply absent; no orphan pass exists. -/
theorem c4_counterexample :
    (load_data genW "D" "1" "1"
        [{ dept := "D", semester := "1", grade := "1", courseName := "M",
           courseType := "T", defaultClass := "1A" }] []
        [{ uuid := "bb", dept := "D", semester := "1", grade := "1",
           courseName := "N", classes := "1A" }]).map (·.uuid) = ["a"] ∧
    ("bb" : String) ≠ "a" :=
  ⟨by decide, by decide⟩

/-- C4 (amended): `load_data` performs no orphan pass — rows are emitted
only while iterating catalog rows, so a submission whose identifier belongs
to no submission whose course name matches an in-scope catalog row is
absent from the returned display list. -/
theorem load_data_no_orphan_pass (gen : Nat → String) (dept semester grade : String)
    (curr : List CatalogRow) (hist : List HistRow) (subs : List SubRow) (s : SubRow)
    (hg : Function.Injective gen)
    (hgf : ∀ m, ∀ s' ∈ subs, gen m ≠ s'.uuid)
    (hs : s ∈ subs)
    (hnc : ∀ s' ∈ subs, s'.uuid = s.uuid → ∀ c ∈ curr,
      c.dept = dept → c.semester = semester → c.grade = grade →
      c.courseName ≠ s'.courseName) :
    s.uuid ∉ (load_data gen dept semester grade curr hist subs).map (·.uuid) := by
  intro hmem
  rw [load_data] at hmem
  set B : String → Prop := fun u => ∃ s' ∈ subs, s'.uuid = u ∧ ∃ c ∈ curr,
    (c.dept = dept ∧ c.semester = semester ∧ c.grade = grade) ∧
    c.courseName = s'.courseName with hBdef
  revert hmem
  split
  · simp
  · intro hmem
    have h := loadDataAux_inv gen dept semester grade hist subs B hg hgf
      (curr.filter fun c => c.dept = dept ∧ c.semester = semester ∧ c.grade = grade)
      { rows := [], displayed := [], n := 0 }
      ?hB ⟨List.nodup_nil, by simp, by simp⟩
    case hB =>
      intro c hc s' hs' hd hsem hgr hcn _
      rw [List.mem_filter] at hc
      obtain ⟨hc1, hc2⟩ := hc
      simp only [decide_eq_true_eq] at hc2
      exact ⟨s', hs', rfl, c, hc1, hc2, hcn.symm⟩
    obtain ⟨h1, h2, h3⟩ := h
    obtain ⟨r, hr, hru⟩ := List.mem_map.mp hmem
    rcases h2 r hr with hdisp | ⟨m, _, he⟩
    · obtain ⟨_, hBu⟩ := h3 _ hdisp
      rw [hru] at hBu
      obtain ⟨s', hs', hsu, c, hc, ⟨hcd, hcs, hcg⟩, hcn⟩ := hBu
      exact hnc s' hs' hsu c hc hcd hcs hcg hcn
    · rw [hru] at he
      exact hgf m s hs he.symm

/-- C4 witness: the amended absence statement at the counterexample's
input. -/
theorem load_data_no_orphan_pass_witness :
    "bb" ∉ (load_data genW "D" "1" "1"
        [{ dept := "D", semester := "1", grade := "1", courseName := "M",
           courseType := "T", defaultClass := "1A" }] []
        [{ uuid := "bb", dept := "D", semester := "1", grade := "1",
           courseName := "N", classes := "1A" }]).map (·.uuid) :=
  load_data_no_orphan_pass genW "D" "1" "1" _ _ _ _ genW_inj
    (fun m s hs => by
      rw [List.mem_singleton] at hs
      subst hs
      exact genW_ne_bb m)
    (List.mem_singleton.mpr rfl)
    (fun s' hs' _ c hc => by
      rw [List.mem_singleton] at hs' hc
      subst hs'
      subst hc
      intro _ _ _
      decide)

/-! # Claim C5 — display order -/

/-- C5 is false on the code: with two in-scope catalog rows of categories
`A` then `B` and no other data, `load_data` returns the rows in catalog
order (`A` before `B`), which is not sorted by course category
descending — no sort is applied at all. -/
theorem c5_counterexample :
    ¬ sortedByCategoryDesc (load_data genW "D" "1" "1"
        [{ dept := "D", semester := "1", grade := "1", courseName := "x",
           courseType := "A", defaultClass := "1A" },
         { dept := "D", semester := "1", grade := "1", courseName := "y",
           courseType := "B", defaultClass := "1A" }] [] []) := by
  intro hs
  have h : load_data genW "D" "1" "1"
      [{ dept := "D", semester := "1", grade := "1", courseName := "x",
         courseType := "A", defaultClass := "1A" },
       { dept := "D", semester := "1", grade := "1", courseName := "y",
         courseType := "B", defaultClass := "1A" }] [] [] =
      [blankDisplayRow "D" "1" "1" "A" "x" "1A" "a",
       blankDisplayRow "D" "1" "1" "B" "y" "1A" "aa"] := by decide
  rw [h, sortedByCategoryDesc, List.chain'_cons] at hs
  exact absurd hs.1 (by decide)

/-- C5 (amended): `load_data` applies no sort; the display list is in
emission order following the catalog rows — in particular, with no
submissions and no history it is exactly the in-scope catalog rows, in
their original order, as blank placeholders. -/
theorem load_data_emission_order (gen : Nat → String) (dept semester grade : String)
    (curr : List CatalogRow) :
    load_data gen dept semester grade curr [] [] =
      blankList gen dept grade semester
        (curr.filter fun c => c.dept = dept ∧ c.semester = semester ∧ c.grade = grade) 0 := by
  rw [load_data]
  by_cases h : (curr.filter fun c =>
      c.dept = dept ∧ c.semester = semester ∧ c.grade = grade).isEmpty
  · rw [if_pos h]
    rw [List.isEmpty_iff] at h
    rw [h]
    rfl
  · rw [if_neg h, loadDataAux_no_sources]
    simp

end CurriculumFill

namespace CurriculumFill

/-! # Claim C6 — upsert semantics of the store writer -/

/-- C6: on a canonical store where the record's identifier occurs in
exactly one data row (`pre ++ old :: post` with the match at `old`),
`save_single_row` overwrites that row in place at the same position with
the freshly written cells and appends nothing; a second call with the same
identifier overwrites the same position again, leaving exactly one row for
that identifier with the latest values; the written row's timestamp cell is
the fresh timestamp; and when the identifier occurs in no row, the new row
is appended. -/
theorem save_single_row_upsert (pre post : List (List String)) (old : List String)
    (r r2 : RecordData) (ts ts2 : String)
    (hu : r.uuid ≠ "") (hu2 : r2.uuid = r.uuid)
    (hold : cellAt old 0 = r.uuid)
    (hpre : ∀ row ∈ pre, cellAt row 0 ≠ r.uuid)
    (hpost : ∀ row ∈ post, cellAt row 0 ≠ r.uuid) :
    save_single_row (canonicalHeaders :: (pre ++ old :: post)) ts r =
        canonicalHeaders :: (pre ++ rowToWrite ts r canonicalHeaders :: post) ∧
    save_single_row (save_single_row (canonicalHeaders :: (pre ++ old :: post)) ts r) ts2 r2 =
        canonicalHeaders :: (pre ++ rowToWrite ts2 r2 canonicalHeaders :: post) ∧
    (pre ++ rowToWrite ts2 r2 canonicalHeaders :: post).countP
        (fun row => cellAt row 0 = r.uuid) = 1 ∧
    cellAt (rowToWrite ts2 r2 canonicalHeaders) 1 = ts2 ∧
    (∀ rows : List (List String), (∀ row ∈ rows, cellAt row 0 ≠ r.uuid) →
      save_single_row (canonicalHeaders :: rows) ts r =
        canonicalHeaders :: (rows ++ [rowToWrite ts r canonicalHeaders])) := by
  have hprep : ∀ row ∈ pre, (fun row => decide (cellAt row 0 = r.uuid)) row = false :=
    fun row hrow => by simp [hpre row hrow]
  have hpostp : ∀ row ∈ post, (fun row => decide (cellAt row 0 = r.uuid)) row = false :=
    fun row hrow => by simp [hpost row hrow]
  have hfind1 : (pre ++ old :: post).findIdx? (fun row => cellAt row 0 = r.uuid) =
      some pre.length :=
    findIdx?_middle _ pre post old hprep (by simp [hold])
  have e1 : save_single_row (canonicalHeaders :: (pre ++ old :: post)) ts r =
      canonicalHeaders :: (pre ++ rowToWrite ts r canonicalHeaders :: post) := by
    rw [save_canonical_found _ _ _ _ hu hfind1, set_middle]
  have hu2' : r2.uuid ≠ "" := by rw [hu2]; exact hu
  have hfind2 : (pre ++ rowToWrite ts r canonicalHeaders :: post).findIdx?
      (fun row => cellAt row 0 = r2.uuid) = some pre.length := by
    apply findIdx?_middle _ pre post _ _ (by simp [rowToWrite_uuid, hu2])
    intro row hrow
    simp [hu2, hpre row hrow]
  have e2 : save_single_row (save_single_row (canonicalHeaders :: (pre ++ old :: post)) ts r)
      ts2 r2 = canonicalHeaders :: (pre ++ rowToWrite ts2 r2 canonicalHeaders :: post) := by
    rw [e1, save_canonical_found _ _ _ _ hu2' hfind2, set_middle]
  refine ⟨e1, e2, ?_, rfl, ?_⟩
  · rw [List.countP_append, List.countP_cons]
    have hp0 : pre.countP (fun row => decide (cellAt row 0 = r.uuid)) = 0 :=
      List.countP_eq_zero.mpr (by intro a ha; simp [hpre a ha])
    have hq0 : post.countP (fun row => decide (cellAt row 0 = r.uuid)) = 0 :=
      List.countP_eq_zero.mpr (by intro a ha; simp [hpost a ha])
    simp [hp0, hq0, rowToWrite_uuid, hu2]
  · intro rows hrows
    have hfind : rows.findIdx? (fun row => cellAt row 0 = r.uuid) = none :=
      findIdx?_none_of_all _ _ (fun a ha => by simp [hrows a ha])
    exact save_canonical_notfound rows ts r hu hfind

/-- C6 witness: the upsert behaviour at a one-row store holding uuid `u1`,
written twice with different textbook titles. -/
theorem save_single_row_upsert_witness :
    save_single_row (canonicalHeaders :: ([] ++ oldRowW :: [])) "t1" rW1 =
        canonicalHeaders :: ([] ++ rowToWrite "t1" rW1 canonicalHeaders :: []) ∧
    save_single_row (save_single_row (canonicalHeaders :: ([] ++ oldRowW :: [])) "t1" rW1)
        "t2" rW2 =
        canonicalHeaders :: ([] ++ rowToWrite "t2" rW2 canonicalHeaders :: []) ∧
    ([] ++ rowToWrite "t2" rW2 canonicalHeaders :: []).countP
        (fun row => cellAt row 0 = rW1.uuid) = 1 ∧
    cellAt (rowToWrite "t2" rW2 canonicalHeaders) 1 = "t2" ∧
    (∀ rows : List (List String), (∀ row ∈ rows, cellAt row 0 ≠ rW1.uuid) →
      save_single_row (canonicalHeaders :: rows) "t1" rW1 =
        canonicalHeaders :: (rows ++ [rowToWrite "t1" rW1 canonicalHeaders])) :=
  save_single_row_upsert [] [] oldRowW rW1 rW2 "t1" "t2" (by decide) rfl (by decide)
    (fun row h => absurd h (List.not_mem_nil row))
    (fun row h => absurd h (List.not_mem_nil row))

/-! # Claim C7 — delete semantics -/

/-- C7: `delete_row_from_db` removes exactly the one data row whose
uuid-column cell equals the target and returns `true`; a second call with
the same identifier is a no-op returning `false`; and it is a no-op
returning `false` when the identifier is empty. -/
theorem delete_row_from_db_behavior (headers : List String) (pre post : List (List String))
    (old : List String) (target : String)
    (hh : headers.contains "uuid" = true)
    (ht : target ≠ "")
    (hold : cellAt old (headers.findIdx fun h => h = "uuid") = target)
    (hpre : ∀ row ∈ pre, cellAt row (headers.findIdx fun h => h = "uuid") ≠ target)
    (hpost : ∀ row ∈ post, cellAt row (headers.findIdx fun h => h = "uuid") ≠ target) :
    delete_row_from_db (headers :: (pre ++ old :: post)) target =
        (true, headers :: (pre ++ post)) ∧
    delete_row_from_db (headers :: (pre ++ post)) target =
        (false, headers :: (pre ++ post)) ∧
    (∀ store : List (List String), delete_row_from_db store "" = (false, store)) := by
  have hfind1 : (pre ++ old :: post).findIdx?
      (fun row => cellAt row (headers.findIdx fun h => h = "uuid") = target) =
      some pre.length :=
    findIdx?_middle _ pre post old (fun a ha => by simp [hpre a ha]) (by simp [hold])
  have hfind2 : (pre ++ post).findIdx?
      (fun row => cellAt row (headers.findIdx fun h => h = "uuid") = target) = none := by
    apply findIdx?_none_of_all
    intro a ha
    rcases List.mem_append.mp ha with h | h
    · simp [hpre a h]
    · simp [hpost a h]
  refine ⟨?_, ?_, ?_⟩
  · simp only [delete_row_from_db, ht, if_false, hh, if_true, hfind1, eraseIdx_middle]
  · simp only [delete_row_from_db, ht, if_false, hh, if_true, hfind2]
  · intro store
    cases store <;> simp [delete_row_from_db]

/-- C7 witness: deleting uuid `u1` from the one-row store removes the row
and returns `true`; deleting it again returns `false` and changes
nothing. -/
theorem delete_row_from_db_behavior_witness :
    delete_row_from_db (canonicalHeaders :: ([] ++ oldRowW :: [])) "u1" =
        (true, canonicalHeaders :: ([] ++ [])) ∧
    delete_row_from_db (canonicalHeaders :: ([] ++ [])) "u1" =
        (false, canonicalHeaders :: ([] ++ [])) ∧
    (∀ store : List (List String), delete_row_from_db store "" = (false, store)) :=
  delete_row_from_db_behavior canonicalHeaders [] [] oldRowW "u1" rfl (by decide)
    (by decide)
    (fun row h => absurd h (List.not_mem_nil row))
    (fun row h => absurd h (List.not_mem_nil row))

/-! # Claim C8 — forward-sync idempotence (spec-modelled) -/

/-- C8: `forwardSync` is idempotent — a second run with the same arguments
copies nothing, because after the first run every archive row of the
requested department and cycle already has its identifier present in the
submission store; rows already present are skipped, never overwritten.
(The repository ships no forward-sync code; the operation is modelled from
the spec, §4.4.) -/
theorem forwardSync_idempotent (subs archive : List SelRecord)
    (dept cycle nowTs curCycle : String) :
    forwardSync (forwardSync subs archive dept cycle nowTs curCycle)
        archive dept cycle nowTs curCycle =
      forwardSync subs archive dept cycle nowTs curCycle := by
  have hcov : ∀ h ∈ archive, h.dept = dept → h.cycleTag = cycle →
      h.uuid ∈ (forwardSync subs archive dept cycle nowTs curCycle).map (·.uuid) := by
    intro h hmem hd hc
    by_cases hp : h.uuid ∈ subs.map (·.uuid)
    · rw [forwardSync]
      exact foldl_upsert_mono
        (fun h => { h with timestamp := nowTs, cycleTag := curCycle }) _ subs _ hp
    · have hmem2 : h ∈ archive.filter (fun h =>
          h.dept = dept ∧ h.cycleTag = cycle ∧ ¬ h.uuid ∈ subs.map (·.uuid)) :=
        List.mem_filter.mpr ⟨hmem, by simp [hd, hc, hp]⟩
      rw [forwardSync]
      exact mem_uuid_foldl_self
        (fun h => { h with timestamp := nowTs, cycleTag := curCycle }) (fun _ => rfl)
        _ subs h hmem2
  conv_lhs => rw [forwardSync]
  have hnil : archive.filter (fun h =>
      h.dept = dept ∧ h.cycleTag = cycle ∧
        ¬ h.uuid ∈ (forwardSync subs archive dept cycle nowTs curCycle).map (·.uuid)) = [] := by
    rw [List.filter_eq_nil_iff]
    intro h hmem
    simp only [decide_eq_true_eq, not_and]
    intro hd hc hn
    exact hn (hcov h hmem hd hc)
  rw [hnil]
  rfl

/-! # Claim C9 — validation blocks the store write -/

/-- C9: on both the update-save and the add-new handlers, a missing
required field (class scope, or the primary textbook's title, publisher or
volume) reports a validation error, attempts no store write (the store is
returned untouched and the write flag is `false`), and leaves the session
state — edit index and form contents included — unchanged. -/
theorem save_validation_blocks (gen : Nat → String) (ts dept grade sem : String)
    (inp : FormInput) (st : SessionState) (store : List (List String))
    (hinv : inp.classStr = "" ∨ inp.book1 = "" ∨ inp.pub1 = "" ∨ inp.vol1 = "") :
    updateRowAction gen ts dept grade sem inp st store = (st, store, true, false) ∧
    addRowAction gen ts dept grade sem inp st store = (st, store, true, false) := by
  constructor
  · simp only [updateRowAction]
    rw [if_pos hinv]
  · simp only [addRowAction]
    rw [if_pos hinv]

/-- C9 witness: an empty primary-textbook title blocks both handlers. -/
theorem save_validation_blocks_witness :
    updateRowAction genW "t" "D" "1" "1" { book1 := "" } {} [] = ({}, [], true, false) ∧
    addRowAction genW "t" "D" "1" "1" { book1 := "" } {} [] = ({}, [], true, false) :=
  save_validation_blocks genW "t" "D" "1" "1" _ _ _ (Or.inr (Or.inl rfl))

/-! # Claim C10 — header repair erases the store -/

/-- C10: when the header row exists but has no `uuid` column,
`save_single_row` clears the worksheet and rewrites the canonical header,
so one upsert call erases every previously persisted data row: only the
canonical header and the newly written record remain. -/
theorem save_single_row_header_repair (headers : List String) (body : List (List String))
    (r : RecordData) (ts : String)
    (hh : headers.contains "uuid" = false) :
    save_single_row (headers :: body) ts r =
      [canonicalHeaders, rowToWrite ts r canonicalHeaders] := by
  simp only [save_single_row, List.isEmpty_cons, Bool.false_eq_true, if_false,
    List.headD_cons, hh, List.drop_succ_cons, List.drop_zero, colIdxLast_canonical,
    Option.getD_some, List.drop_one]
  by_cases hu : r.uuid = ""
  · simp [hu]
  · simp [hu, List.findIdx?]

/-- C10 witness: a store with header `foo` and one data row is reduced to
the canonical header plus the one written record. -/
theorem save_single_row_header_repair_witness :
    save_single_row [["foo"], ["x", "y"]] "t1" rW1 =
      [canonicalHeaders, rowToWrite "t1" rW1 canonicalHeaders] :=
  save_single_row_header_repair ["foo"] [["x", "y"]] rW1 "t1" (by decide)

end CurriculumFill
